import Mathlib

/-!
Verification development for regview, a read-only decoder of Windows
registry hive files (src/regview.c).  The byte source is modelled as a
total function from absolute file positions to byte values; reads that
the C program performs with fseek+fread become pure functions of that
memory.  Machine integers are modelled as Nat/Int with explicit
two-complement reinterpretation where the C code reads signed fields.
Allocation failure is not modelled; short reads are modelled where a
claim depends on them (the root-locator scan), as transferring nothing
and leaving the destination and the file position unchanged, which
matches C stdio when the file is exhausted exactly at a read boundary.
-/

namespace Regview

/-- A byte source: total map from absolute file offset to a byte. -/
abbrev Mem := Nat → Nat

/-- Byte at a position (values are reduced mod 256). -/
def byteAt (m : Mem) (p : Nat) : Nat := m p % 256

/-- Little-endian unsigned 16-bit read. -/
def readU16 (m : Mem) (p : Nat) : Nat := byteAt m p + 256 * byteAt m (p + 1)

/-- Reinterpret an unsigned 16-bit value as a signed short. -/
def toSigned16 (v : Nat) : Int := if v < 32768 then (v : Int) else (v : Int) - 65536

/-- Little-endian signed 16-bit read (C short). -/
def readS16 (m : Mem) (p : Nat) : Int := toSigned16 (readU16 m p)

/-- Little-endian unsigned 32-bit read. -/
def readU32 (m : Mem) (p : Nat) : Nat :=
  byteAt m p + 256 * byteAt m (p + 1) + 65536 * byteAt m (p + 2) + 16777216 * byteAt m (p + 3)

/-- Reinterpret an unsigned 32-bit value as a signed int32. -/
def toSigned32 (v : Nat) : Int := if v < 2147483648 then (v : Int) else (v : Int) - 4294967296

/-- Little-endian signed 32-bit read (C int32_t). -/
def readS32 (m : Mem) (p : Nat) : Int := toSigned32 (readU32 m p)

/-- Source function convOff: a hive-relative offset converted to the
absolute file offset of the structure (past the 0x1000-byte header page
and the 4-byte cell length prefix), in uint32 arithmetic. -/
def convOff (off : Nat) : Nat := (off + 4096 + 4) % 4294967296

/-- The fields of an nk cell (struct nk_cell) that the program reads:
signature, type discriminant, subkey count and subkey-index offset,
declared name length and the trailing name bytes.  Field offsets in
the struct: signature 0, type 2, num_subkeys 20, subkeys 28,
name_len 72, name 76. -/
structure NK where
  sig : List Nat
  type : Int
  num_subkeys : Int
  subkeys : Nat
  name_len : Nat
  name : List Nat
deriving DecidableEq

/-- Decode an nk cell at an absolute offset.  The two-phase C read
(fixed prefix, then realloc and re-read with the name) collapses to a
single pure read because the source is deterministic. -/
def readNK (m : Mem) (base : Nat) : NK :=
  { sig := [byteAt m base, byteAt m (base + 1)]
    type := readS16 m (base + 2)
    num_subkeys := readS32 m (base + 20)
    subkeys := readU32 m (base + 28)
    name_len := readU16 m (base + 72)
    name := (List.range (readU16 m (base + 72))).map (fun i => byteAt m (base + 76 + i)) }

/-- Two-byte record signature at an absolute offset. -/
def readSig (m : Mem) (p : Nat) : List Nat := [byteAt m p, byteAt m (p + 1)]

/-- Signature lh (bytes l, h). -/
def sigLH : List Nat := [108, 104]

/-- Signature lf (bytes l, f). -/
def sigLF : List Nat := [108, 102]

/-- Signature ri (bytes r, i). -/
def sigRI : List Nat := [114, 105]

/-- Signature li (bytes l, i). -/
def sigLI : List Nat := [108, 105]

/-- Target offsets of the n hash records (struct hashrec, 8 bytes each,
offset field first) laid out from an absolute base position. -/
def hashOffsets (m : Mem) (base n : Nat) : List Nat :=
  (List.range n).map (fun i => readU32 m (base + 8 * i))

/-- A run of n plain 4-byte offsets from an absolute base position
(the entry array of an ri record, or of an li record). -/
def listOffsets (m : Mem) (base n : Nat) : List Nat :=
  (List.range n).map (fun i => readU32 m (base + 4 * i))

/-- Observable output of the tree walk: a visited node (printNKName at
an indentation depth) or the count-mismatch warning printf. -/
inductive Event where
  | node (depth off : Nat) (nk : NK)
  | warn (declared actual : Int)
deriving DecidableEq

/-- The fatal exit sites of printSubTree.  invalidCount is the
explicit pre-allocation count check of the direct HashList path;
allocFailed is the exit(1) taken when a count-sized malloc is given a
negative entry count (the negative short converts to a size_t near
2^64, so that allocation fails deterministically on any real target,
unlike ordinary allocation failure, which is environment-dependent
and not modelled). -/
inductive WalkErr where
  | invalidCount
  | allocFailed
  | unknownSubentry
  | unknownSubkeyType
deriving DecidableEq

instance {ε α : Type} [DecidableEq ε] [DecidableEq α] : DecidableEq (Except ε α) :=
  fun a b =>
    match a, b with
    | Except.ok x, Except.ok y =>
      if h : x = y then isTrue (by rw [h]) else isFalse (by intro hc; cases hc; exact h rfl)
    | Except.error x, Except.error y =>
      if h : x = y then isTrue (by rw [h]) else isFalse (by intro hc; cases hc; exact h rfl)
    | Except.ok _, Except.error _ => isFalse (by intro hc; cases hc)
    | Except.error _, Except.ok _ => isFalse (by intro hc; cases hc)

/-- Walk a list of nk-cell offsets in order with a given child walker,
concatenating their event streams; an error aborts, missing fuel
propagates. -/
def seqWalk (wc : Nat → Option (Except WalkErr (List Event))) :
    List Nat → Option (Except WalkErr (List Event))
  | [] => some (Except.ok [])
  | o :: rest =>
    match wc o with
    | none => none
    | some (Except.error e) => some (Except.error e)
    | some (Except.ok evs) =>
      match seqWalk wc rest with
      | none => none
      | some (Except.error e) => some (Except.error e)
      | some (Except.ok evs2) => some (Except.ok (evs ++ evs2))

/-- Process the entry list of an ri record: each entry points at a
secondary lh/lf or li record whose own entry count bounds the nk
offsets walked; any other secondary signature is fatal.  A negative
secondary count has no explicit check in the source, but the
count-sized malloc it feeds (the negative short converted to a size_t
near 2^64) fails deterministically and the program exit(1)s there,
modelled as allocFailed. -/
def riProcess (m : Mem) (wc : Nat → Option (Except WalkErr (List Event))) :
    List Nat → Option (Except WalkErr (List Event))
  | [] => some (Except.ok [])
  | lo :: rest =>
    let p := convOff lo
    let n2 := readS16 m (p + 2)
    let sub : Option (Except WalkErr (List Event)) :=
      if readSig m p = sigLH ∨ readSig m p = sigLF then
        if n2 < 0 then some (Except.error WalkErr.allocFailed)
        else seqWalk wc (hashOffsets m (p + 4) n2.toNat)
      else if readSig m p = sigLI then
        if n2 < 0 then some (Except.error WalkErr.allocFailed)
        else seqWalk wc (listOffsets m (p + 4) n2.toNat)
      else some (Except.error WalkErr.unknownSubentry)
    match sub with
    | none => none
    | some (Except.error e) => some (Except.error e)
    | some (Except.ok evs) =>
      match riProcess m wc rest with
      | none => none
      | some (Except.error e) => some (Except.error e)
      | some (Except.ok evs2) => some (Except.ok (evs ++ evs2))

/-- Embedding of printSubTree(root, regf, level) with an explicit fuel
bound on recursion depth: the result is none when the recursion would
go deeper than the fuel allows, so a run of the C program terminates
at a node exactly when some fuel makes the result non-none there.
An ri record with a negative entry count has no explicit check, but
the count-sized malloc of its offset array fails deterministically
(the negative short converts to a size_t near 2^64) and the program
exit(1)s, modelled as allocFailed. -/
def printSubTree (m : Mem) : Nat → Nat → Nat → Option (Except WalkErr (List Event))
  | 0, _, _ => none
  | f + 1, off, level =>
    let nk := readNK m (convOff off)
    if nk.num_subkeys = 0 ∨ nk.subkeys = 0 ∨ nk.subkeys = 4294967295 then
      some (Except.ok [Event.node level off nk])
    else
      let p := convOff nk.subkeys
      let n : Int := readS16 m (p + 2)
      if readSig m p = sigLH ∨ readSig m p = sigLF then
        if n < 0 then some (Except.error WalkErr.invalidCount)
        else
          match seqWalk (fun o => printSubTree m f o (level + 1)) (hashOffsets m (p + 4) n.toNat) with
          | none => none
          | some (Except.error e) => some (Except.error e)
          | some (Except.ok evs) =>
            some (Except.ok (Event.node level off nk ::
              ((if nk.num_subkeys = n then [] else [Event.warn nk.num_subkeys n]) ++ evs)))
      else if readSig m p = sigRI then
        if n < 0 then some (Except.error WalkErr.allocFailed)
        else
          match riProcess m (fun o => printSubTree m f o (level + 1)) (listOffsets m (p + 4) n.toNat) with
          | none => none
          | some (Except.error e) => some (Except.error e)
          | some (Except.ok evs) => some (Except.ok (Event.node level off nk :: evs))
      else some (Except.error WalkErr.unknownSubkeyType)

/-- A node is a leaf for the walk: no subkeys, or an absent or all-ones
subkey-index offset. -/
def isLeafAt (m : Mem) (off : Nat) : Prop :=
  (readNK m (convOff off)).num_subkeys = 0 ∨ (readNK m (convOff off)).subkeys = 0 ∨
    (readNK m (convOff off)).subkeys = 4294967295

instance (m : Mem) (off : Nat) : Decidable (isLeafAt m off) := by
  unfold isLeafAt; infer_instance

/-- The nk offsets a secondary record of an ri list walks: the hash
record targets for lh/lf, the plain offsets for anything else (used
only where the signature is known to be lh, lf or li). -/
def secChildOffsets (m : Mem) (lo : Nat) : List Nat :=
  if readSig m (convOff lo) = sigLH ∨ readSig m (convOff lo) = sigLF then
    hashOffsets m (convOff lo + 4) (readS16 m (convOff lo + 2)).toNat
  else
    listOffsets m (convOff lo + 4) (readS16 m (convOff lo + 2)).toNat

/-- Projection of the event stream to the visited (depth, offset)
pairs, dropping warnings. -/
def emitted (evs : List Event) : List (Nat × Nat) :=
  evs.filterMap (fun e => match e with
    | Event.node d o _ => some (d, o)
    | Event.warn _ _ => none)

/-- Real size of a cell from its stored signed 32-bit length, as the C
line computes it: (-1*cell_size) - sizeof(int), where the subtraction
is performed in size_t and the result is stored back into an int32_t
(hence the reduction mod 2^32 reinterpreted as signed). -/
def cellSizeReal (L : Int) : Int := toSigned32 (((-L - 4) % 4294967296).toNat)

/-- The root-scan size sanity check: the scan exits when the real cell
size is negative or larger than one 0x1000-byte page. -/
def cellCheckFails (L : Int) : Prop := cellSizeReal L < 0 ∨ 4096 < cellSizeReal L

instance (L : Int) : Decidable (cellCheckFails L) := by
  unfold cellCheckFails; infer_instance

/-- Loop state of the root-locator scan in main: the file position and
the current value of the C variable cell_size (which a failed fread
leaves unchanged). -/
structure ScanSt where
  pos : Nat
  cellSize : Int
deriving DecidableEq

/-- One iteration of the root-locator loop either exits fatally on the
size check, breaks with the root cell position, or continues with a
new state. -/
inductive ScanOut where
  | corrupt
  | found (pos : Nat)
  | next (st : ScanSt)
deriving DecidableEq

/-- Result of a terminating scan. -/
inductive ScanRes where
  | corrupt
  | found (pos : Nat)
deriving DecidableEq

/-- Signature hbin (bytes h, b, i, n). -/
def sigHBIN : List Nat := [104, 98, 105, 110]

/-- Four-byte record signature at an absolute offset. -/
def readSig4 (m : Mem) (p : Nat) : List Nat :=
  [byteAt m p, byteAt m (p + 1), byteAt m (p + 2), byteAt m (p + 3)]

/-- At a page boundary the scan reads a BlockHeader (32 bytes) and
keeps the advanced position only when the signature is hbin;
otherwise it seeks back (and a read past the end does not move). -/
def hbinSkip (len : Nat) (m : Mem) (pos : Nat) : Nat :=
  if pos % 4096 = 0 ∧ pos + 32 ≤ len ∧ readSig4 m pos = sigHBIN then pos + 32 else pos

/-- Byte i of the cell buffer the scan freads: when the n declared
bytes are not all available the fread transfers nothing, the malloc
result is modelled as zero-filled, and the position does not move. -/
def bufByte (len : Nat) (m : Mem) (pos n i : Nat) : Nat :=
  if pos + n ≤ len then byteAt m (pos + i) else 0

/-- One iteration of the while(1) root-locator loop of main over a
file of len bytes: optional hbin skip, fread of cell_size (stale on a
read past the end), size sanity check, fread of the cell body, and
the nk/root test (signature nk and type 0x2c). -/
def scanStep (len : Nat) (m : Mem) (st : ScanSt) : ScanOut :=
  let pos0 := hbinSkip len m st.pos
  let cs := if pos0 + 4 ≤ len then readS32 m pos0 else st.cellSize
  let pos1 := if pos0 + 4 ≤ len then pos0 + 4 else pos0
  if cellCheckFails cs then ScanOut.corrupt
  else
    let n := (cellSizeReal cs).toNat
    let pos2 := if pos1 + n ≤ len then pos1 + n else pos1
    if bufByte len m pos1 n 0 = 110 ∧ bufByte len m pos1 n 1 = 107 ∧
        toSigned16 (bufByte len m pos1 n 2 + 256 * bufByte len m pos1 n 3) = 44 then
      ScanOut.found pos1
    else ScanOut.next { pos := pos2, cellSize := cs }

/-- The root-locator loop with a fuel bound on the iteration count:
none means the loop is still running after that many iterations. -/
def scanFuel (len : Nat) (m : Mem) : Nat → ScanSt → Option ScanRes
  | 0, _ => none
  | f + 1, st =>
    match scanStep len m st with
    | ScanOut.corrupt => some ScanRes.corrupt
    | ScanOut.found p => some (ScanRes.found p)
    | ScanOut.next st2 => scanFuel len m f st2

/-- State on entry to the loop: main has read the 0x200-byte header,
seeked to 0x1000 and read one 32-byte BlockHeader, and cell_size is
initialised to -1. -/
def scanStart : ScanSt := { pos := 4128, cellSize := -1 }

/-- A 32-bit word of the 0x200-byte hive header, which validHeader
scans as an array of uint32_t: word 0 holds the regf signature bytes,
word 127 the stored checksum. -/
def wordAt (h : Mem) (i : Nat) : Nat := h i % 4294967296

/-- The little-endian word whose four bytes are r, e, g, f. -/
def magicREGF : Nat := 1718052210

/-- XOR fold of the first n 32-bit words of a header. -/
def foldXor (n : Nat) (f : Nat → Nat) : Nat :=
  ((List.range n).map f).foldl (fun a b => a ^^^ b) 0

/-- The checksum validHeader computes: XOR of the 127 words preceding
the stored checksum word (bytes 0x000 through 0x1FB). -/
def hdrChecksum (h : Mem) : Nat := foldXor 127 (wordAt h)

/-- Outcome of header validation. -/
inductive HdrRes where
  | ok
  | badSignature
  | badChecksum
deriving DecidableEq

/-- Embedding of validHeader: signature check first, then the XOR
checksum comparison. -/
def validHeader (h : Mem) : HdrRes :=
  if wordAt h 0 = magicREGF then
    if hdrChecksum h = wordAt h 127 then HdrRes.ok else HdrRes.badChecksum
  else HdrRes.badSignature

/-- Flip bit b of 32-bit word j of a header. -/
def flipBit (h : Mem) (j b : Nat) : Mem :=
  fun i => if i = j then wordAt h j ^^^ 2 ^ b else h i

/-- Embedding of WindowsTickToUnixSeconds: the 64-bit tick count is
divided by 10^7, the epoch difference is subtracted in uint64
arithmetic, and the result is truncated to the unsigned (32-bit)
return type. -/
def WindowsTickToUnixSeconds (t : Nat) : Nat :=
  ((t / 10000000 + (18446744073709551616 - 11644473600)) % 18446744073709551616) % 4294967296

/-- A hive whose root nk (hive-relative offset 0, file offset 0x1004)
declares one subkey through an lh list at offset 0x100 whose single
entry points back at offset 0: the subkey graph is a self-cycle. -/
def cycMem : Mem := fun p =>
  if p = 4100 then 110 else if p = 4101 then 107 else
  if p = 4120 then 1 else if p = 4129 then 1 else
  if p = 4356 then 108 else if p = 4357 then 104 else
  if p = 4358 then 1 else 0

/-- A hive whose root nk declares one subkey through an ri record at
offset 0x100 whose declared entry count is the signed short -1. -/
def riNegMem : Mem := fun p =>
  if p = 4100 then 110 else if p = 4101 then 107 else
  if p = 4120 then 1 else if p = 4129 then 1 else
  if p = 4356 then 114 else if p = 4357 then 105 else
  if p = 4358 then 255 else if p = 4359 then 255 else 0

/-- A hive whose root nk declares one subkey through an lh record at
offset 0x100 whose declared entry count is the signed short -1. -/
def lhNegMem : Mem := fun p =>
  if p = 4100 then 110 else if p = 4101 then 107 else
  if p = 4120 then 1 else if p = 4129 then 1 else
  if p = 4356 then 108 else if p = 4357 then 104 else
  if p = 4358 then 255 else if p = 4359 then 255 else 0

/-- A hive whose root nk declares 3 subkeys but whose lh list at
offset 0x100 declares 2 entries, pointing at two leaf nk cells at
offsets 0x200 and 0x300. -/
def mmMem : Mem := fun p =>
  if p = 4100 then 110 else if p = 4101 then 107 else
  if p = 4120 then 3 else if p = 4129 then 1 else
  if p = 4356 then 108 else if p = 4357 then 104 else
  if p = 4358 then 2 else
  if p = 4361 then 2 else if p = 4369 then 3 else
  if p = 4612 then 110 else if p = 4613 then 107 else
  if p = 4868 then 110 else if p = 4869 then 107 else 0

/-- A hive whose root nk declares 3 subkeys through an ri record at
offset 0x100 with two entries: an lh list at 0x200 holding one leaf
at 0x400, and an li list at 0x300 holding one leaf at 0x500. -/
def riMem : Mem := fun p =>
  if p = 4100 then 110 else if p = 4101 then 107 else
  if p = 4120 then 3 else if p = 4129 then 1 else
  if p = 4356 then 114 else if p = 4357 then 105 else
  if p = 4358 then 2 else
  if p = 4361 then 2 else if p = 4365 then 3 else
  if p = 4612 then 108 else if p = 4613 then 104 else
  if p = 4614 then 1 else if p = 4617 then 4 else
  if p = 4868 then 108 else if p = 4869 then 105 else
  if p = 4870 then 1 else if p = 4873 then 5 else
  if p = 5124 then 110 else if p = 5125 then 107 else
  if p = 5380 then 110 else if p = 5381 then 107 else 0

/-- A file of 0x102C bytes holding one allocated 8-byte cell (stored
length -12 at position 0x1020) whose content is not an nk record, and
then nothing: no cell in the source is a root key node. -/
def scanM2 : Mem := fun p =>
  if p = 4128 then 244 else
  if p = 4129 then 255 else if p = 4130 then 255 else if p = 4131 then 255 else 0

/-- Length of the scanM2 file. -/
def scanM2Len : Nat := 4140

/-- A file whose first scanned cell stores the non-negative length 5
(a free cell) at position 0x1020. -/
def scanM5 : Mem := fun p => if p = 4128 then 5 else 0

/-- A header whose word 0 is the regf magic, whose words 1 through 126
are zero, and whose stored checksum word equals the XOR of the words
before it (which is the magic itself). -/
def hGood : Mem := fun i => if i = 0 then magicREGF else if i = 127 then magicREGF else 0

theorem readU32_lt (m : Mem) (p : Nat) : readU32 m p < 4294967296 := by
  unfold readU32 byteAt
  have h0 : m p % 256 < 256 := Nat.mod_lt _ (by norm_num)
  have h1 : m (p + 1) % 256 < 256 := Nat.mod_lt _ (by norm_num)
  have h2 : m (p + 2) % 256 < 256 := Nat.mod_lt _ (by norm_num)
  have h3 : m (p + 3) % 256 < 256 := Nat.mod_lt _ (by norm_num)
  omega

theorem readS32_bounds (m : Mem) (p : Nat) :
    -2147483648 ≤ readS32 m p ∧ readS32 m p < 2147483648 := by
  have h := readU32_lt m p
  unfold readS32 toSigned32
  split <;> omega

theorem cellCheckFails_of_nonneg (L : Int) (h0 : 0 ≤ L) (h1 : L < 2147483648) :
    cellCheckFails L := by
  unfold cellCheckFails cellSizeReal toSigned32
  split <;> omega

theorem hbinSkip_of_unaligned (len : Nat) (m : Mem) (pos : Nat) (h : pos % 4096 ≠ 0) :
    hbinSkip len m pos = pos := by
  unfold hbinSkip
  exact if_neg (fun hc => h hc.1)

theorem scanFuel_succ_eq (len : Nat) (m : Mem) (f : Nat) (st : ScanSt) :
    scanFuel len m (f + 1) st =
      match scanStep len m st with
      | ScanOut.corrupt => some ScanRes.corrupt
      | ScanOut.found p => some (ScanRes.found p)
      | ScanOut.next st2 => scanFuel len m f st2 := rfl

/-- C4 counterexample: a stored cell length of -4 yields real length 0,
which the claim says is fatal, yet the size check accepts it. -/
theorem cell_check_accepts_zero_real_length :
    cellSizeReal (-4) = 0 ∧ ¬ cellCheckFails (-4) := by decide

/-- C4 (amended): for every stored signed 32-bit length L (excluding
INT_MIN, whose negation is undefined in C), the real length is -L - 4
whenever that value is representable, and the root-scan read fails
fatally exactly when -L - 4 is strictly negative or exceeds 4096; the
boundary case -L - 4 = 0 is accepted. -/
theorem cell_check_exact (L : Int) (h1 : -2147483648 < L) (h2 : L < 2147483648) :
    (L ≤ 2147483644 → cellSizeReal L = -L - 4) ∧
    (cellCheckFails L ↔ (-L - 4 < 0 ∨ 4096 < -L - 4)) := by
  unfold cellCheckFails cellSizeReal toSigned32
  refine ⟨fun h3 => ?_, ?_⟩ <;> (split <;> omega)

theorem cell_check_exact_witness : ¬ cellCheckFails (-500) := by
  have h := cell_check_exact (-500) (by decide) (by decide)
  rw [h.2]
  decide

/-- C5: whenever the root-locator scan reads a cell whose stored
signed length is non-negative (a free cell), the whole scan exits
fatally at that cell instead of skipping it. -/
theorem scan_free_cell_is_fatal (len : Nat) (m : Mem) (st : ScanSt)
    (hb : st.pos % 4096 ≠ 0) (hr : st.pos + 4 ≤ len) (hL : 0 ≤ readS32 m st.pos) :
    scanStep len m st = ScanOut.corrupt := by
  have hfail : cellCheckFails (readS32 m st.pos) :=
    cellCheckFails_of_nonneg _ hL (readS32_bounds m st.pos).2
  unfold scanStep
  rw [hbinSkip_of_unaligned len m st.pos hb]
  simp only [if_pos hr, if_pos hfail]

theorem scan_free_cell_is_fatal_witness :
    scanStep 4132 scanM5 scanStart = ScanOut.corrupt :=
  scan_free_cell_is_fatal 4132 scanM5 scanStart (by decide) (by decide) (by decide)

theorem scanM2_stuck (f : Nat) :
    scanFuel scanM2Len scanM2 f { pos := 4140, cellSize := -12 } = none := by
  induction f with
  | zero => rfl
  | succ f ih =>
    rw [scanFuel_succ_eq]
    rw [show scanStep scanM2Len scanM2 { pos := 4140, cellSize := -12 } =
      ScanOut.next { pos := 4140, cellSize := -12 } from by decide]
    exact ih

/-- C2: on a finite source holding no root key node the root-locator
loop does not terminate with RootNotFound; once the file is exhausted
the failed fread leaves the stale cell size in place and the loop
spins forever on the same state, for every iteration bound. -/
theorem scan_no_root_loops_forever (f : Nat) :
    scanFuel scanM2Len scanM2 f scanStart = none := by
  cases f with
  | zero => rfl
  | succ f =>
    rw [scanFuel_succ_eq]
    rw [show scanStep scanM2Len scanM2 scanStart =
      ScanOut.next { pos := 4140, cellSize := -12 } from by decide]
    exact scanM2_stuck f

/-- C9 counterexample: at tick count 0 the conversion returns the
32-bit wrapped value 1240428288, not the exact (negative) value
0 / 10^7 - 11644473600 the claim states. -/
theorem tick_conversion_not_exact_at_zero :
    (WindowsTickToUnixSeconds 0 : Int) ≠ (0 : Int) / 10000000 - 11644473600 := by decide

/-- C9 (amended): for every 64-bit tick count whose converted value
lies in the unsigned 32-bit range (seconds since 1970 below 2^32),
the conversion returns exactly ticks / 10^7 - 11644473600; outside
that range the result wraps modulo 2^32. -/
theorem tick_conversion_exact_in_range (t : Nat) (_ht : t < 18446744073709551616)
    (h1 : 11644473600 ≤ t / 10000000) (h2 : t / 10000000 - 11644473600 < 4294967296) :
    WindowsTickToUnixSeconds t = t / 10000000 - 11644473600 := by
  unfold WindowsTickToUnixSeconds
  omega

theorem tick_conversion_exact_in_range_witness :
    WindowsTickToUnixSeconds 131000000000000000 =
      131000000000000000 / 10000000 - 11644473600 :=
  tick_conversion_exact_in_range 131000000000000000 (by decide) (by decide) (by decide)

theorem printSubTree_succ_eq (m : Mem) (f off level : Nat) :
    printSubTree m (f + 1) off level =
      (if (readNK m (convOff off)).num_subkeys = 0 ∨ (readNK m (convOff off)).subkeys = 0 ∨
          (readNK m (convOff off)).subkeys = 4294967295 then
        some (Except.ok [Event.node level off (readNK m (convOff off))])
      else if readSig m (convOff (readNK m (convOff off)).subkeys) = sigLH ∨
          readSig m (convOff (readNK m (convOff off)).subkeys) = sigLF then
        if readS16 m (convOff (readNK m (convOff off)).subkeys + 2) < 0 then
          some (Except.error WalkErr.invalidCount)
        else
          match seqWalk (fun o => printSubTree m f o (level + 1))
              (hashOffsets m (convOff (readNK m (convOff off)).subkeys + 4)
                (readS16 m (convOff (readNK m (convOff off)).subkeys + 2)).toNat) with
          | none => none
          | some (Except.error e) => some (Except.error e)
          | some (Except.ok evs) =>
            some (Except.ok (Event.node level off (readNK m (convOff off)) ::
              ((if (readNK m (convOff off)).num_subkeys =
                  readS16 m (convOff (readNK m (convOff off)).subkeys + 2) then []
                else [Event.warn (readNK m (convOff off)).num_subkeys
                  (readS16 m (convOff (readNK m (convOff off)).subkeys + 2))]) ++ evs)))
      else if readSig m (convOff (readNK m (convOff off)).subkeys) = sigRI then
        if readS16 m (convOff (readNK m (convOff off)).subkeys + 2) < 0 then
          some (Except.error WalkErr.allocFailed)
        else
          match riProcess m (fun o => printSubTree m f o (level + 1))
              (listOffsets m (convOff (readNK m (convOff off)).subkeys + 4)
                (readS16 m (convOff (readNK m (convOff off)).subkeys + 2)).toNat) with
          | none => none
          | some (Except.error e) => some (Except.error e)
          | some (Except.ok evs) =>
            some (Except.ok (Event.node level off (readNK m (convOff off)) :: evs))
      else some (Except.error WalkErr.unknownSubkeyType)) := rfl

theorem walk_leaf (m : Mem) (f off level : Nat) (h : isLeafAt m off) :
    printSubTree m (f + 1) off level =
      some (Except.ok [Event.node level off (readNK m (convOff off))]) := by
  rw [printSubTree_succ_eq]
  unfold isLeafAt at h
  rw [if_pos h]

theorem seqWalk_leaves (m : Mem) (f level : Nat) (offs : List Nat)
    (h : ∀ o ∈ offs, isLeafAt m o) :
    seqWalk (fun o => printSubTree m (f + 1) o level) offs =
      some (Except.ok (offs.map (fun o => Event.node level o (readNK m (convOff o))))) := by
  induction offs with
  | nil => rfl
  | cons o rest ih =>
    simp only [seqWalk]
    rw [walk_leaf m f o level (h o (List.mem_cons_self o rest))]
    rw [ih (fun x hx => h x (List.mem_cons_of_mem o hx))]
    rfl

theorem riProcess_leaves (m : Mem) (f level : Nat) (los : List Nat)
    (hs : ∀ lo ∈ los, readSig m (convOff lo) = sigLH ∨ readSig m (convOff lo) = sigLF ∨
      readSig m (convOff lo) = sigLI)
    (hnn : ∀ lo ∈ los, 0 ≤ readS16 m (convOff lo + 2))
    (hl : ∀ lo ∈ los, ∀ o ∈ secChildOffsets m lo, isLeafAt m o) :
    riProcess m (fun o => printSubTree m (f + 1) o level) los =
      some (Except.ok ((los.map (fun lo => (secChildOffsets m lo).map
        (fun o => Event.node level o (readNK m (convOff o))))).flatten)) := by
  induction los with
  | nil => rfl
  | cons lo rest ih =>
    have hsl := hs lo (List.mem_cons_self lo rest)
    have hnl2 : ¬ readS16 m (convOff lo + 2) < 0 :=
      not_lt.mpr (hnn lo (List.mem_cons_self lo rest))
    have hll := hl lo (List.mem_cons_self lo rest)
    have ihr := ih (fun x hx => hs x (List.mem_cons_of_mem lo hx))
      (fun x hx => hnn x (List.mem_cons_of_mem lo hx))
      (fun x hx => hl x (List.mem_cons_of_mem lo hx))
    simp only [riProcess]
    rcases hsl with h1 | h1 | h1
    · have hsec : secChildOffsets m lo =
          hashOffsets m (convOff lo + 4) (readS16 m (convOff lo + 2)).toNat := by
        unfold secChildOffsets
        rw [if_pos (Or.inl h1)]
      rw [if_pos (Or.inl h1), if_neg hnl2]
      rw [seqWalk_leaves m f level _ (hsec ▸ hll)]
      rw [ihr]
      simp only [List.map_cons, List.flatten_cons, hsec]
    · have hsec : secChildOffsets m lo =
          hashOffsets m (convOff lo + 4) (readS16 m (convOff lo + 2)).toNat := by
        unfold secChildOffsets
        rw [if_pos (Or.inr h1)]
      rw [if_pos (Or.inr h1), if_neg hnl2]
      rw [seqWalk_leaves m f level _ (hsec ▸ hll)]
      rw [ihr]
      simp only [List.map_cons, List.flatten_cons, hsec]
    · have hnothash : ¬ (readSig m (convOff lo) = sigLH ∨ readSig m (convOff lo) = sigLF) := by
        rw [h1]; decide
      have hsec : secChildOffsets m lo =
          listOffsets m (convOff lo + 4) (readS16 m (convOff lo + 2)).toNat := by
        unfold secChildOffsets
        rw [if_neg hnothash]
      rw [if_neg hnothash, if_pos h1, if_neg hnl2]
      rw [seqWalk_leaves m f level _ (hsec ▸ hll)]
      rw [ihr]
      simp only [List.map_cons, List.flatten_cons, hsec]

theorem walk_direct_lh (m : Mem) (off level f : Nat) (nk : NK) (n : Int)
    (hnk : readNK m (convOff off) = nk)
    (hnl : ¬ (nk.num_subkeys = 0 ∨ nk.subkeys = 0 ∨ nk.subkeys = 4294967295))
    (hsig : readSig m (convOff nk.subkeys) = sigLH ∨ readSig m (convOff nk.subkeys) = sigLF)
    (hn : readS16 m (convOff nk.subkeys + 2) = n)
    (h0 : 0 ≤ n)
    (hleaf : ∀ o ∈ hashOffsets m (convOff nk.subkeys + 4) n.toNat, isLeafAt m o) :
    printSubTree m (f + 2) off level =
      some (Except.ok (Event.node level off nk ::
        ((if nk.num_subkeys = n then [] else [Event.warn nk.num_subkeys n]) ++
          (hashOffsets m (convOff nk.subkeys + 4) n.toNat).map
            (fun o => Event.node (level + 1) o (readNK m (convOff o)))))) := by
  rw [show f + 2 = f + 1 + 1 from (Nat.add_assoc f 1 1).symm]
  rw [printSubTree_succ_eq, hnk, hn]
  rw [if_neg hnl, if_pos hsig, if_neg (not_lt.mpr h0)]
  rw [seqWalk_leaves m f (level + 1) (hashOffsets m (convOff nk.subkeys + 4) n.toNat) hleaf]

/-- C6: a KeyNode whose subkey index is a directly-referenced HashList
(signature lh or lf) with a non-negative entry count that differs from
the parent's declared subkey count produces exactly one warning event
and then exactly the HashList's entry count of children (stated for
children that are leaves, so that the number of visited children is
the number of entries), with no fatal abort. -/
theorem direct_hashlist_mismatch_warns_once (m : Mem) (off level f : Nat) (nk : NK) (n : Int)
    (hnk : readNK m (convOff off) = nk)
    (hnl : ¬ (nk.num_subkeys = 0 ∨ nk.subkeys = 0 ∨ nk.subkeys = 4294967295))
    (hsig : readSig m (convOff nk.subkeys) = sigLH ∨ readSig m (convOff nk.subkeys) = sigLF)
    (hn : readS16 m (convOff nk.subkeys + 2) = n)
    (h0 : 0 ≤ n)
    (hmm2 : nk.num_subkeys ≠ n)
    (hleaf : ∀ o ∈ hashOffsets m (convOff nk.subkeys + 4) n.toNat, isLeafAt m o) :
    printSubTree m (f + 2) off level =
      some (Except.ok (Event.node level off nk :: Event.warn nk.num_subkeys n ::
        (hashOffsets m (convOff nk.subkeys + 4) n.toNat).map
          (fun o => Event.node (level + 1) o (readNK m (convOff o))))) := by
  rw [walk_direct_lh m off level f nk n hnk hnl hsig hn h0 hleaf]
  rw [if_neg hmm2]
  rfl

theorem direct_hashlist_mismatch_warns_once_witness :
    printSubTree mmMem 2 0 0 =
      some (Except.ok [
        Event.node 0 0 ⟨[110, 107], 0, 3, 256, 0, []⟩,
        Event.warn 3 2,
        Event.node 1 512 ⟨[110, 107], 0, 0, 0, 0, []⟩,
        Event.node 1 768 ⟨[110, 107], 0, 0, 0, 0, []⟩]) := by
  have h := direct_hashlist_mismatch_warns_once mmMem 0 0 0 (readNK mmMem (convOff 0)) 2
    rfl (by decide) (by decide) (by decide) (by decide) (by decide) (by decide)
  exact h.trans (by decide)

theorem emitted_nil : emitted [] = [] := rfl

theorem emitted_cons_node (d o : Nat) (nk : NK) (l : List Event) :
    emitted (Event.node d o nk :: l) = (d, o) :: emitted l := rfl

theorem emitted_cons_warn (a b : Int) (l : List Event) :
    emitted (Event.warn a b :: l) = emitted l := rfl

theorem emitted_nodes (level : Nat) (g : Nat → NK) (offs : List Nat) :
    emitted (offs.map (fun o => Event.node level o (g o))) = offs.map (fun o => (level, o)) := by
  induction offs with
  | nil => rfl
  | cons o rest ih => rw [List.map_cons, emitted_cons_node, ih, List.map_cons]

/-- C8: for a node whose subkey index is a directly-referenced
HashList with N (leaf) entries, the walk emits the node itself first
and then its N children at the next depth in on-disk entry order, so
exactly N+1 nodes in pre-order with no re-sorting. -/
theorem walk_preorder_direct_hashlist (m : Mem) (off level f : Nat) (nk : NK) (n : Int)
    (hnk : readNK m (convOff off) = nk)
    (hnl : ¬ (nk.num_subkeys = 0 ∨ nk.subkeys = 0 ∨ nk.subkeys = 4294967295))
    (hsig : readSig m (convOff nk.subkeys) = sigLH ∨ readSig m (convOff nk.subkeys) = sigLF)
    (hn : readS16 m (convOff nk.subkeys + 2) = n)
    (h0 : 0 ≤ n)
    (hleaf : ∀ o ∈ hashOffsets m (convOff nk.subkeys + 4) n.toNat, isLeafAt m o) :
    (printSubTree m (f + 2) off level).map (Except.map emitted) =
      some (Except.ok ((level, off) ::
        (hashOffsets m (convOff nk.subkeys + 4) n.toNat).map (fun o => (level + 1, o)))) := by
  rw [walk_direct_lh m off level f nk n hnk hnl hsig hn h0 hleaf]
  simp only [Option.map_some', Except.map]
  by_cases hc : nk.num_subkeys = n
  · rw [if_pos hc, List.nil_append, emitted_cons_node, emitted_nodes]
  · rw [if_neg hc, List.singleton_append, emitted_cons_node, emitted_cons_warn, emitted_nodes]

theorem walk_preorder_direct_hashlist_witness :
    (printSubTree mmMem 2 0 0).map (Except.map emitted) =
      some (Except.ok [(0, 0), (1, 512), (1, 768)]) := by
  have h := walk_preorder_direct_hashlist mmMem 0 0 0 (readNK mmMem (convOff 0)) 2
    rfl (by decide) (by decide) (by decide) (by decide) (by decide)
  exact h.trans (by decide)

/-- C10: when a node's subkey index is an ri record (with its entry
counts non-negative, so that the input-determined allocation-failure
exits cannot fire), its secondary lists are walked with each list's
own declared count as the iteration bound and the walk emits no
count-mismatch warning anywhere on that path, whatever the parent's
declared subkey count is (no hypothesis relates them). -/
theorem ri_path_never_warns (m : Mem) (off level f : Nat) (nk : NK)
    (hnk : readNK m (convOff off) = nk)
    (hnl : ¬ (nk.num_subkeys = 0 ∨ nk.subkeys = 0 ∨ nk.subkeys = 4294967295))
    (hsig : readSig m (convOff nk.subkeys) = sigRI)
    (hn0 : 0 ≤ readS16 m (convOff nk.subkeys + 2))
    (hs : ∀ lo ∈ listOffsets m (convOff nk.subkeys + 4)
        (readS16 m (convOff nk.subkeys + 2)).toNat,
      readSig m (convOff lo) = sigLH ∨ readSig m (convOff lo) = sigLF ∨
        readSig m (convOff lo) = sigLI)
    (hnn : ∀ lo ∈ listOffsets m (convOff nk.subkeys + 4)
        (readS16 m (convOff nk.subkeys + 2)).toNat,
      0 ≤ readS16 m (convOff lo + 2))
    (hl : ∀ lo ∈ listOffsets m (convOff nk.subkeys + 4)
        (readS16 m (convOff nk.subkeys + 2)).toNat,
      ∀ o ∈ secChildOffsets m lo, isLeafAt m o) :
    ∃ evs, printSubTree m (f + 2) off level = some (Except.ok evs) ∧
      evs = Event.node level off nk ::
        ((listOffsets m (convOff nk.subkeys + 4) (readS16 m (convOff nk.subkeys + 2)).toNat).map
          (fun lo => (secChildOffsets m lo).map
            (fun o => Event.node (level + 1) o (readNK m (convOff o))))).flatten ∧
      ∀ a b : Int, Event.warn a b ∉ evs := by
  refine ⟨_, ?_, rfl, ?_⟩
  · have hnothash : ¬ (readSig m (convOff nk.subkeys) = sigLH ∨
        readSig m (convOff nk.subkeys) = sigLF) := by rw [hsig]; decide
    rw [show f + 2 = f + 1 + 1 from (Nat.add_assoc f 1 1).symm]
    rw [printSubTree_succ_eq, hnk]
    rw [if_neg hnl, if_neg hnothash, if_pos hsig, if_neg (not_lt.mpr hn0)]
    rw [riProcess_leaves m f (level + 1) _ hs hnn hl]
  · intro a b hab
    rcases List.mem_cons.mp hab with hh | hh
    · exact Event.noConfusion hh
    · rcases List.mem_flatten.mp hh with ⟨l, hl1, hl2⟩
      rcases List.mem_map.mp hl1 with ⟨lo, _, rfl⟩
      rcases List.mem_map.mp hl2 with ⟨o, _, he⟩
      exact Event.noConfusion he

theorem ri_path_never_warns_witness :
    printSubTree riMem 2 0 0 =
      some (Except.ok [
        Event.node 0 0 ⟨[110, 107], 0, 3, 256, 0, []⟩,
        Event.node 1 1024 ⟨[110, 107], 0, 0, 0, 0, []⟩,
        Event.node 1 1280 ⟨[110, 107], 0, 0, 0, 0, []⟩]) := by
  obtain ⟨evs, h1, h2, _⟩ := ri_path_never_warns riMem 0 0 0 (readNK riMem (convOff 0))
    rfl (by decide) (by decide) (by decide) (by decide) (by decide) (by decide)
  rw [h2] at h1
  exact h1.trans (by decide)

/-- C3 counterexample: on a root whose subkey index is an ri record
with declared entry count -1 the walk is fatal only at the attempted
count-sized allocation of the offset array (the exit at the failed
malloc), not through the pre-allocation InvalidCount check that the
claim asserts happens before any count-sized sequence is allocated
on every record kind. -/
theorem ri_negative_count_no_precheck :
    printSubTree riNegMem 2 0 0 = some (Except.error WalkErr.allocFailed) ∧
    printSubTree riNegMem 2 0 0 ≠ some (Except.error WalkErr.invalidCount) := by decide

/-- C3 (amended): a negative declared entry count is detected and is
fatal (InvalidCount) before the entry sequence is allocated only for
the HashList directly referenced by a KeyNode; on the IndexOfIndexes
path there is no pre-allocation check — an ri record with a negative
count, and a secondary lh/lf/li record of an ri list with a negative
count, are still fatal, but only because the count-sized allocation
they feed is attempted and fails (the negative short converted to a
huge size_t), not through any detection before the allocation. -/
theorem negative_count_check_sites (m : Mem) (off level f : Nat) (nk : NK)
    (hnk : readNK m (convOff off) = nk)
    (hnl : ¬ (nk.num_subkeys = 0 ∨ nk.subkeys = 0 ∨ nk.subkeys = 4294967295)) :
    ((readSig m (convOff nk.subkeys) = sigLH ∨ readSig m (convOff nk.subkeys) = sigLF) →
      readS16 m (convOff nk.subkeys + 2) < 0 →
      printSubTree m (f + 1) off level = some (Except.error WalkErr.invalidCount)) ∧
    (readSig m (convOff nk.subkeys) = sigRI →
      readS16 m (convOff nk.subkeys + 2) < 0 →
      printSubTree m (f + 1) off level = some (Except.error WalkErr.allocFailed)) ∧
    (∀ (wc : Nat → Option (Except WalkErr (List Event))) (lo : Nat),
      (readSig m (convOff lo) = sigLH ∨ readSig m (convOff lo) = sigLF ∨
        readSig m (convOff lo) = sigLI) →
      readS16 m (convOff lo + 2) < 0 →
      riProcess m wc [lo] = some (Except.error WalkErr.allocFailed)) := by
  refine ⟨fun hsig hneg => ?_, fun hsig hneg => ?_, fun wc lo hsig hneg => ?_⟩
  · rw [printSubTree_succ_eq, hnk]
    rw [if_neg hnl, if_pos hsig, if_pos hneg]
  · have hnothash : ¬ (readSig m (convOff nk.subkeys) = sigLH ∨
        readSig m (convOff nk.subkeys) = sigLF) := by rw [hsig]; decide
    rw [printSubTree_succ_eq, hnk]
    rw [if_neg hnl, if_neg hnothash, if_pos hsig, if_pos hneg]
  · simp only [riProcess]
    rcases hsig with h1 | h1 | h1
    · rw [if_pos (Or.inl h1), if_pos hneg]
    · rw [if_pos (Or.inr h1), if_pos hneg]
    · have hnothash : ¬ (readSig m (convOff lo) = sigLH ∨ readSig m (convOff lo) = sigLF) := by
        rw [h1]; decide
      rw [if_neg hnothash, if_pos h1, if_pos hneg]

theorem negative_count_check_sites_witness :
    printSubTree lhNegMem 1 0 0 = some (Except.error WalkErr.invalidCount) ∧
    printSubTree riNegMem 1 0 0 = some (Except.error WalkErr.allocFailed) ∧
    riProcess lhNegMem (fun _ => none) [256] = some (Except.error WalkErr.allocFailed) := by
  refine ⟨?_, ?_, ?_⟩
  · exact (negative_count_check_sites lhNegMem 0 0 0 (readNK lhNegMem (convOff 0)) rfl
      (by decide)).1 (by decide) (by decide)
  · exact (negative_count_check_sites riNegMem 0 0 0 (readNK riNegMem (convOff 0)) rfl
      (by decide)).2.1 (by decide) (by decide)
  · exact (negative_count_check_sites lhNegMem 0 0 0 (readNK lhNegMem (convOff 0)) rfl
      (by decide)).2.2 (fun _ => none) 256 (by decide) (by decide)

/-- C1: on the self-cyclic hive cycMem the walk starting at the root
offset never terminates: for every recursion-depth bound (fuel) the
walk is still running, at every display depth. -/
theorem walk_cycle_never_terminates :
    ∀ f level : Nat, printSubTree cycMem f 0 level = none := by
  intro f
  induction f with
  | zero => intro level; rfl
  | succ f ih =>
    intro level
    have h1 : ¬ ((readNK cycMem (convOff 0)).num_subkeys = 0 ∨
        (readNK cycMem (convOff 0)).subkeys = 0 ∨
        (readNK cycMem (convOff 0)).subkeys = 4294967295) := by decide
    have h2 : readSig cycMem (convOff (readNK cycMem (convOff 0)).subkeys) = sigLH ∨
        readSig cycMem (convOff (readNK cycMem (convOff 0)).subkeys) = sigLF := by decide
    have h3 : ¬ readS16 cycMem (convOff (readNK cycMem (convOff 0)).subkeys + 2) < 0 := by
      decide
    have h4 : hashOffsets cycMem (convOff (readNK cycMem (convOff 0)).subkeys + 4)
        (readS16 cycMem (convOff (readNK cycMem (convOff 0)).subkeys + 2)).toNat = [0] := by
      decide
    rw [printSubTree_succ_eq]
    rw [if_neg h1, if_pos h2, if_neg h3, h4]
    simp only [seqWalk]
    rw [ih (level + 1)]

theorem foldXor_succ (n : Nat) (f : Nat → Nat) :
    foldXor (n + 1) f = foldXor n f ^^^ f n := by
  unfold foldXor
  rw [List.range_succ, List.map_append, List.foldl_append]
  rfl

theorem foldXor_congr (n : Nat) (f g : Nat → Nat) (h : ∀ i, i < n → g i = f i) :
    foldXor n g = foldXor n f := by
  induction n with
  | zero => rfl
  | succ n ih =>
    rw [foldXor_succ, foldXor_succ, ih (fun i hi => h i (Nat.lt_succ_of_lt hi)),
      h n (Nat.lt_succ_self n)]

theorem foldXor_flip (n : Nat) (f g : Nat → Nat) (j mv : Nat) (hj : j < n)
    (hg : ∀ i, i < n → i ≠ j → g i = f i) (hgj : g j = f j ^^^ mv) :
    foldXor n g = foldXor n f ^^^ mv := by
  induction n with
  | zero => omega
  | succ n ih =>
    rw [foldXor_succ, foldXor_succ]
    by_cases hjn : j = n
    · subst hjn
      rw [foldXor_congr j f g (fun i hi => hg i (Nat.lt_succ_of_lt hi) (Nat.ne_of_lt hi)), hgj]
      rw [Nat.xor_assoc]
    · have hj2 : j < n := by omega
      rw [ih hj2 (fun i hi hij => hg i (Nat.lt_succ_of_lt hi) hij)]
      rw [hg n (Nat.lt_succ_self n) (fun hc => hjn hc.symm)]
      rw [Nat.xor_assoc, Nat.xor_assoc, Nat.xor_comm mv (f n)]

theorem xor_pow_ne_self (x b : Nat) : x ^^^ 2 ^ b ≠ x := by
  intro h
  have h2 := congrArg (fun y => x ^^^ y) h
  simp only at h2
  rw [← Nat.xor_assoc, Nat.xor_self, Nat.zero_xor] at h2
  exact (Nat.two_pow_pos b).ne' h2

theorem wordAt_lt_pow (h : Mem) (i : Nat) : wordAt h i < 2 ^ 32 := by
  have hx : wordAt h i < 4294967296 := Nat.mod_lt _ (by norm_num)
  norm_num
  exact hx

theorem lt_u32_of_lt_pow {v : Nat} (hv : v < 2 ^ 32) : v < 4294967296 := by
  norm_num at hv
  exact hv

theorem wordAt_flipBit_same (h : Mem) (j b : Nat) (hb : b < 32) :
    wordAt (flipBit h j b) j = wordAt h j ^^^ 2 ^ b := by
  have hx : wordAt h j ^^^ 2 ^ b < 2 ^ 32 :=
    Nat.xor_lt_two_pow (wordAt_lt_pow h j) (Nat.pow_lt_pow_right (by norm_num) hb)
  simp only [wordAt, flipBit, if_true]
  exact Nat.mod_eq_of_lt (lt_u32_of_lt_pow hx)

theorem wordAt_flipBit_other (h : Mem) (j b i : Nat) (hij : i ≠ j) :
    wordAt (flipBit h j b) i = wordAt h i := by
  simp only [wordAt, flipBit]
  rw [if_neg hij]

/-- C7: validation fails with BadSignature exactly when the signature
word differs from the regf magic; with the signature right, it fails
with BadChecksum exactly when the XOR of the 127 words preceding the
stored checksum differs from it; and flipping any single bit of any
word in the checksummed region of a valid header makes validation
fail. -/
theorem validHeader_exact (h : Mem) :
    (validHeader h = HdrRes.badSignature ↔ wordAt h 0 ≠ magicREGF) ∧
    (wordAt h 0 = magicREGF →
      (validHeader h = HdrRes.badChecksum ↔ hdrChecksum h ≠ wordAt h 127)) ∧
    (validHeader h = HdrRes.ok → ∀ j b : Nat, j < 127 → b < 32 →
      validHeader (flipBit h j b) ≠ HdrRes.ok) := by
  refine ⟨?_, ?_, ?_⟩
  · unfold validHeader
    by_cases h1 : wordAt h 0 = magicREGF
    · rw [if_pos h1]
      by_cases h2 : hdrChecksum h = wordAt h 127
      · rw [if_pos h2]; simp [h1]
      · rw [if_neg h2]; simp [h1]
    · rw [if_neg h1]; simp [h1]
  · intro h1
    unfold validHeader
    rw [if_pos h1]
    by_cases h2 : hdrChecksum h = wordAt h 127
    · rw [if_pos h2]; simp [h2]
    · rw [if_neg h2]; simp [h2]
  · intro hok j b hj hb
    unfold validHeader at hok
    by_cases h1 : wordAt h 0 = magicREGF
    · rw [if_pos h1] at hok
      by_cases h2 : hdrChecksum h = wordAt h 127
      · by_cases hj0 : j = 0
        · subst hj0
          unfold validHeader
          rw [wordAt_flipBit_same h 0 b hb, h1]
          rw [if_neg (xor_pow_ne_self magicREGF b)]
          simp
        · have hcs : hdrChecksum (flipBit h j b) = hdrChecksum h ^^^ 2 ^ b := by
            unfold hdrChecksum
            exact foldXor_flip 127 (wordAt h) (wordAt (flipBit h j b)) j (2 ^ b) hj
              (fun i _ hij => wordAt_flipBit_other h j b i hij)
              (wordAt_flipBit_same h j b hb)
          unfold validHeader
          rw [wordAt_flipBit_other h j b 0 (fun hc => hj0 hc.symm)]
          rw [if_pos h1, hcs]
          rw [wordAt_flipBit_other h j b 127 (fun hc => by omega)]
          rw [if_neg (by rw [← h2]; exact xor_pow_ne_self (hdrChecksum h) b)]
          simp
      · rw [if_neg h2] at hok
        exact absurd hok (by decide)
    · rw [if_neg h1] at hok
      exact absurd hok (by decide)

set_option maxRecDepth 4000 in
theorem validHeader_exact_witness :
    validHeader hGood = HdrRes.ok ∧ validHeader (flipBit hGood 5 7) ≠ HdrRes.ok :=
  ⟨by decide, (validHeader_exact hGood).2.2 (by decide) 5 7 (by decide) (by decide)⟩

end Regview
